import Mathlib

/-!
Shallow embedding of the go-todo repository core
(`internal/domain/entity.go`, `internal/infra/storage/file_storage.go`,
`internal/usecase/*.go`) and proofs about it.

The store owned by `FileRepository` is a single JSON document holding a
list of todos; we model the persisted state as the decoded `List Todo`
and each repository method as a function from that state (plus the
method's arguments) to the next state together with the method's result.
An error result is produced exactly on the code paths that return before
calling `save`, so "the backing file is unchanged / no write happens"
is visible as the state component of the result being the input state.
Go `int` is modelled as `Int`; `time.Time` values only flow through the
code unchanged, so they are modelled as `Int` timestamps.
-/

namespace GoTodo

/-- Error kinds distinguished by the code. Go signals errors as values
built with `errors.New`; the constructors below stand for the distinct
error values that appear in the modelled code paths:
`emptyTitle` = "title cannot be empty", `titleTooLong` = "title too long",
`notFound` = "todo not found", `ioError` = a non-`ErrNotExist` failure of
`os.ReadFile`, `parseError` = a `json.Unmarshal` failure. -/
inductive Err where
  | emptyTitle
  | titleTooLong
  | notFound
  | ioError
  | parseError
  deriving DecidableEq, Repr

/-- The `Todo` struct of `internal/domain/entity.go`. `ID` is a Go `int`
(modelled as `Int`); `CreatedAt`/`UpdatedAt` are `time.Time` values that
the code never inspects, modelled as integer timestamps. -/
structure Todo where
  id : Int
  title : String
  completed : Bool
  createdAt : Int
  updatedAt : Int
  deriving DecidableEq, Repr

/-- ValidateTodo from `internal/domain/entity.go`:
first `if t.Title == ""` fails with "title cannot be empty", then
`if len(t.Title) > 255` fails with "title too long", else nil.
Go `len` on a string is its byte length, which for the UTF-8 strings Go
produces is `String.utf8ByteSize`. The result is `none` for nil (success)
and `some e` for an error return. -/
def ValidateTodo (t : Todo) : Option Err :=
  if t.title = "" then some .emptyTitle
  else if t.title.utf8ByteSize > 255 then some .titleTooLong
  else none

namespace FileRepository

/-- Result of `os.ReadFile` on the backing file: the file does not
exist, some other I/O failure, or the raw bytes read. -/
inductive ReadResult where
  | notExist
  | readError
  | bytes (data : List Nat)
  deriving DecidableEq, Repr

/-- The private `load` of `FileRepository`
(`internal/infra/storage/file_storage.go`): a nonexistent file yields the
empty list, any other read error propagates, zero bytes yield the empty
list, and otherwise the bytes are decoded by `json.Unmarshal`, whose
decoding of a todo array is abstracted as the `unmarshal` parameter
(`none` = parse failure). -/
def load (read : ReadResult) (unmarshal : List Nat → Option (List Todo)) :
    Except Err (List Todo) :=
  match read with
  | .notExist => .ok []
  | .readError => .error .ioError
  | .bytes data =>
    if data.length = 0 then .ok []
    else
      match unmarshal data with
      | none => .error .parseError
      | some todos => .ok todos

/-- The `maxID` accumulation loop inside `FileRepository.Create`:
`maxID := 0; for _, t := range todos { if t.ID > maxID { maxID = t.ID } }`. -/
def maxID (todos : List Todo) : Int :=
  todos.foldl (fun m t => if t.id > m then t.id else m) 0

/-- FileRepository.Create under the exclusive lock, acting on the decoded
store contents: computes `maxID`, sets `todo.ID = maxID + 1`, appends the
todo and persists. Returns the persisted list and the todo carrying the
assigned id (Go mutates `todo` in place). -/
def Create (todos : List Todo) (todo : Todo) : List Todo × Todo :=
  let t := { todo with id := maxID todos + 1 }
  (todos ++ [t], t)

/-- FileRepository.FindByID under the shared lock: linear scan for the
first todo with the given id; "todo not found" when absent. -/
def FindByID : List Todo → Int → Except Err Todo
  | [], _ => .error .notFound
  | t :: ts, i => if t.id = i then .ok t else FindByID ts i

/-- Scan of `FileRepository.Update`: replace the first entry whose id
matches `todo.ID` with `todo`; `none` when no entry matches. -/
def replaceByID : List Todo → Todo → Option (List Todo)
  | [], _ => none
  | t :: ts, todo =>
    if t.id = todo.id then some (todo :: ts)
    else (replaceByID ts todo).map (t :: ·)

/-- FileRepository.Update under the exclusive lock: on a match the
replaced list is persisted (`save`), otherwise the method returns
"todo not found" before any write, leaving the stored list as it was. -/
def Update (todos : List Todo) (todo : Todo) : List Todo × Option Err :=
  match replaceByID todos todo with
  | some todos' => (todos', none)
  | none => (todos, some .notFound)

/-- Scan of `FileRepository.Delete`: remove the first entry whose id
matches (`todos = append(todos[:i], todos[i+1:]...)`); `none` when no
entry matches. -/
def removeByID : List Todo → Int → Option (List Todo)
  | [], _ => none
  | t :: ts, i =>
    if t.id = i then some ts
    else (removeByID ts i).map (t :: ·)

/-- FileRepository.Delete under the exclusive lock: on a match the
shortened list is persisted, otherwise the method returns
"todo not found" before any write, leaving the stored list as it was. -/
def Delete (todos : List Todo) (i : Int) : List Todo × Option Err :=
  match removeByID todos i with
  | some todos' => (todos', none)
  | none => (todos, some .notFound)

end FileRepository

/-- CreateTodoUsecase.Execute (`internal/usecase/create_todo.go`): builds
the zero-id todo with `Completed=false` and both timestamps equal to
`now`, validates it, and only on success calls `repo.Create`. The first
component is the store after the call; on a validation error the
repository is never invoked, so the store is returned untouched. -/
def CreateTodoUsecase.Execute (todos : List Todo) (title : String) (now : Int) :
    List Todo × Except Err Todo :=
  let todo : Todo :=
    { id := 0, title := title, completed := false, createdAt := now, updatedAt := now }
  match ValidateTodo todo with
  | some e => (todos, .error e)
  | none =>
    let p := FileRepository.Create todos todo
    (p.1, .ok p.2)

/-- UpdateTodoUsecase.Execute (`internal/usecase/update_todo.go`): fetches
the existing todo via `repo.FindByID`, mutates `Title`, `Completed` and
`UpdatedAt = now` on the fetched copy, validates the mutated record, and
only on success calls `repo.Update`. The first component is the store
after the call. -/
def UpdateTodoUsecase.Execute (todos : List Todo) (i : Int) (title : String)
    (completed : Bool) (now : Int) : List Todo × Except Err Todo :=
  match FileRepository.FindByID todos i with
  | .error e => (todos, .error e)
  | .ok todo =>
    let todo' := { todo with title := title, completed := completed, updatedAt := now }
    match ValidateTodo todo' with
    | some e => (todos, .error e)
    | none =>
      match FileRepository.Update todos todo' with
      | (todos', none) => (todos', .ok todo')
      | (todos', some e) => (todos', .error e)

/-! Helper lemmas shared by the claim theorems. -/

lemma utf8ByteSize_eq_zero_iff (s : String) : s.utf8ByteSize = 0 ↔ s = "" := by
  cases s with
  | mk cs =>
    rw [String.utf8ByteSize_mk, String.utf8Len_eq_zero, String.ext_iff]

namespace FileRepository

lemma maxID_eq_foldl_max (todos : List Todo) :
    maxID todos = todos.foldl (fun m t => max m t.id) 0 := by
  unfold maxID
  congr 1
  funext m t
  rcases le_or_lt t.id m with h | h
  · simp [max_eq_left h]
    omega
  · simp [max_eq_right (le_of_lt h), h]

lemma le_foldl_max (todos : List Todo) (a : Int) :
    a ≤ todos.foldl (fun m t => max m t.id) a := by
  induction todos generalizing a with
  | nil => exact le_refl a
  | cons t ts ih => exact le_trans (le_max_left a t.id) (ih (max a t.id))

lemma mem_le_foldl_max (todos : List Todo) (t : Todo) (h : t ∈ todos) :
    ∀ a : Int, t.id ≤ todos.foldl (fun m u => max m u.id) a := by
  induction h with
  | head us => exact fun a => le_trans (le_max_right a t.id) (le_foldl_max us _)
  | tail u _ ih => exact fun a => ih _

lemma foldl_max_choice (todos : List Todo) (a : Int) :
    todos.foldl (fun m t => max m t.id) a = a ∨
      todos.foldl (fun m t => max m t.id) a ∈ todos.map Todo.id := by
  induction todos generalizing a with
  | nil => exact Or.inl rfl
  | cons t ts ih =>
    rw [List.foldl_cons]
    rcases ih (max a t.id) with h | h
    · rw [h]
      rcases max_choice a t.id with h2 | h2
      · exact Or.inl h2
      · exact Or.inr (by rw [h2]; exact List.mem_map_of_mem Todo.id (List.mem_cons_self t ts))
    · exact Or.inr (List.mem_cons_of_mem _ h)

lemma maxID_nonneg (todos : List Todo) : 0 ≤ maxID todos := by
  rw [maxID_eq_foldl_max]
  exact le_foldl_max todos 0

lemma id_le_maxID (todos : List Todo) (t : Todo) (h : t ∈ todos) :
    t.id ≤ maxID todos := by
  rw [maxID_eq_foldl_max]
  exact mem_le_foldl_max todos t h 0

lemma maxID_zero_or_mem (todos : List Todo) :
    maxID todos = 0 ∨ maxID todos ∈ todos.map Todo.id := by
  rw [maxID_eq_foldl_max]
  exact foldl_max_choice todos 0

lemma maxID_append_one (todos : List Todo) (x : Todo) :
    maxID (todos ++ [x]) = max (maxID todos) x.id := by
  rw [maxID_eq_foldl_max, maxID_eq_foldl_max, List.foldl_append]
  rfl

end FileRepository

/-! Claim theorems. -/

/-- C1: for every starting store contents, repository create assigns the
new Todo the id max(existing ids, default 0) + 1 and appends it to the
stored list; creating three Todos in sequence on an empty store yields
ids 1, 2, 3, and creating on a store whose maximum id is 5 assigns 6. -/
theorem create_assigns_next_id :
    (∀ todos todo, FileRepository.Create todos todo =
        (todos ++ [{ todo with id := FileRepository.maxID todos + 1 }],
          { todo with id := FileRepository.maxID todos + 1 })) ∧
    (∀ todos : List Todo, 0 ≤ FileRepository.maxID todos ∧
      (∀ t, t ∈ todos → t.id ≤ FileRepository.maxID todos) ∧
      (FileRepository.maxID todos = 0 ∨
        FileRepository.maxID todos ∈ todos.map Todo.id)) ∧
    (FileRepository.Create [] ⟨0, "a", false, 0, 0⟩).2.id = 1 ∧
    (FileRepository.Create
      (FileRepository.Create [] ⟨0, "a", false, 0, 0⟩).1 ⟨0, "b", false, 0, 0⟩).2.id = 2 ∧
    (FileRepository.Create
      (FileRepository.Create
        (FileRepository.Create [] ⟨0, "a", false, 0, 0⟩).1 ⟨0, "b", false, 0, 0⟩).1
      ⟨0, "c", false, 0, 0⟩).2.id = 3 ∧
    (FileRepository.Create
      [⟨2, "x", false, 0, 0⟩, ⟨5, "y", true, 0, 0⟩, ⟨3, "z", false, 0, 0⟩]
      ⟨0, "w", false, 0, 0⟩).2.id = 6 := by
  refine ⟨fun todos todo => rfl, fun todos => ⟨FileRepository.maxID_nonneg todos,
    fun t ht => FileRepository.id_le_maxID todos t ht,
    FileRepository.maxID_zero_or_mem todos⟩, ?_, ?_, ?_, ?_⟩ <;> decide

/-- Witness for C1 at a concrete store: the middle todo's id is bounded
by the computed maximum. -/
theorem create_assigns_next_id_witness :
    (⟨5, "y", true, 0, 0⟩ : Todo).id ≤
      FileRepository.maxID [⟨2, "x", false, 0, 0⟩, ⟨5, "y", true, 0, 0⟩] :=
  (create_assigns_next_id.2.1 [⟨2, "x", false, 0, 0⟩, ⟨5, "y", true, 0, 0⟩]).2.1
    ⟨5, "y", true, 0, 0⟩ (by decide)

/-- C2: validate succeeds exactly when the byte length of the title is
between 1 and 255 inclusive; it fails with the empty-title error exactly
when the title is the empty string (that check coming first), and with
the title-too-long error exactly when the title is nonempty and its byte
length exceeds 255. -/
theorem validate_title_iff (t : Todo) :
    (ValidateTodo t = none ↔
      1 ≤ t.title.utf8ByteSize ∧ t.title.utf8ByteSize ≤ 255) ∧
    (ValidateTodo t = some .emptyTitle ↔ t.title = "") ∧
    (ValidateTodo t = some .titleTooLong ↔
      ¬ t.title = "" ∧ 255 < t.title.utf8ByteSize) := by
  unfold ValidateTodo
  by_cases h : t.title = ""
  · have hz : ("" : String).utf8ByteSize = 0 := by decide
    simp [h, hz]
  · have hz : ¬ t.title.utf8ByteSize = 0 := fun c => h ((utf8ByteSize_eq_zero_iff t.title).mp c)
    by_cases h2 : t.title.utf8ByteSize > 255
    · simp [h, h2]
    · simp [h, h2]
      omega

/-- Witness for C2 at a concrete todo with a one-byte title. -/
theorem validate_title_iff_witness :
    ValidateTodo ⟨0, "a", false, 0, 0⟩ = none ↔
      1 ≤ ("a" : String).utf8ByteSize ∧ ("a" : String).utf8ByteSize ≤ 255 :=
  (validate_title_iff ⟨0, "a", false, 0, 0⟩).1

/-- C3: load returns an empty list and no error when the backing file
does not exist or is zero bytes; for any other content it returns an
error exactly when the bytes fail to decode as a JSON array of todos,
and otherwise returns the decoded list. -/
theorem load_empty_file_and_parse (unmarshal : List Nat → Option (List Todo)) :
    FileRepository.load .notExist unmarshal = .ok [] ∧
    FileRepository.load (.bytes []) unmarshal = .ok [] ∧
    ∀ data : List Nat, data ≠ [] →
      ((∃ e, FileRepository.load (.bytes data) unmarshal = .error e) ↔
        unmarshal data = none) ∧
      ∀ todos, unmarshal data = some todos →
        FileRepository.load (.bytes data) unmarshal = .ok todos := by
  refine ⟨rfl, rfl, fun data hd => ?_⟩
  have hlen : ¬ data.length = 0 := by simpa using hd
  constructor
  · cases hu : unmarshal data with
    | none => simp [FileRepository.load, hlen, hu]
    | some todos => simp [FileRepository.load, hlen, hu]
  · intro todos hu
    simp [FileRepository.load, hlen, hu]

/-- Sample decoder standing in for `json.Unmarshal` in the C3 witness:
it accepts exactly the two bytes of the text of an empty array. -/
def unmarshalDemo (data : List Nat) : Option (List Todo) :=
  if data = [91, 93] then some [] else none

/-- Witness for C3: the sample decoder accepts the bytes of an empty
array, and load returns that decoded (empty) list. -/
theorem load_empty_file_and_parse_witness :
    FileRepository.load (.bytes [91, 93]) unmarshalDemo = .ok [] :=
  ((load_empty_file_and_parse unmarshalDemo).2.2 [91, 93] (by decide)).2 [] (by decide)

/-- C9: repository create ignores and overwrites any caller-supplied id;
whatever id the input todo carries, the stored and returned id is
max(existing ids, default 0) + 1. -/
theorem create_ignores_caller_id :
    ∀ todos todo (v : Int),
      FileRepository.Create todos { todo with id := v } =
        FileRepository.Create todos todo ∧
      (FileRepository.Create todos { todo with id := v }).2.id =
        FileRepository.maxID todos + 1 :=
  fun _ _ _ => ⟨rfl, rfl⟩

/-- Witness for C9 at a concrete store and a caller-supplied id 42. -/
theorem create_ignores_caller_id_witness :
    FileRepository.Create [⟨5, "y", true, 0, 0⟩] { (⟨0, "w", false, 0, 0⟩ : Todo) with id := 42 } =
      FileRepository.Create [⟨5, "y", true, 0, 0⟩] ⟨0, "w", false, 0, 0⟩ :=
  (create_ignores_caller_id [⟨5, "y", true, 0, 0⟩] ⟨0, "w", false, 0, 0⟩ 42).1

namespace FileRepository

lemma replaceByID_mem (todos : List Todo) (todo : Todo)
    (h : todo.id ∈ todos.map Todo.id) :
    ∃ l, replaceByID todos todo = some l ∧ todo ∈ l := by
  induction todos with
  | nil => simp at h
  | cons t ts ih =>
    by_cases he : t.id = todo.id
    · exact ⟨todo :: ts, by simp [replaceByID, he], List.mem_cons_self _ _⟩
    · have h' : todo.id ∈ ts.map Todo.id := by
        rcases List.mem_cons.mp h with h0 | h0
        · exact absurd h0.symm he
        · exact h0
      rcases ih h' with ⟨l, hl, hm⟩
      exact ⟨t :: l, by simp [replaceByID, he, hl], List.mem_cons_of_mem _ hm⟩

end FileRepository

/-- C10: the repository layer performs no title validation; even for a
todo whose title fails validation, create appends it (title verbatim)
and update on an existing id persists it. -/
theorem repo_skips_validation :
    ∀ todos todo e, ValidateTodo todo = some e →
      ((FileRepository.Create todos todo).1 =
          todos ++ [{ todo with id := FileRepository.maxID todos + 1 }] ∧
        ({ todo with id := FileRepository.maxID todos + 1 }).title = todo.title) ∧
      (todo.id ∈ todos.map Todo.id →
        ∃ todos', FileRepository.Update todos todo = (todos', none) ∧ todo ∈ todos') := by
  intro todos todo e _
  refine ⟨⟨rfl, rfl⟩, fun hm => ?_⟩
  rcases FileRepository.replaceByID_mem todos todo hm with ⟨l, hl, hmem⟩
  exact ⟨l, by simp [FileRepository.Update, hl], hmem⟩

/-- Witness for C10: a todo with an empty (hence invalid) title is still
persisted by update when its id exists in the store. -/
theorem repo_skips_validation_witness :
    ∃ todos', FileRepository.Update [⟨1, "x", false, 0, 0⟩] ⟨1, "", true, 0, 0⟩ =
        (todos', none) ∧ (⟨1, "", true, 0, 0⟩ : Todo) ∈ todos' :=
  (repo_skips_validation [⟨1, "x", false, 0, 0⟩] ⟨1, "", true, 0, 0⟩ .emptyTitle
    (by decide)).2 (by decide)

namespace FileRepository

lemma replaceByID_not_found (todos : List Todo) (todo : Todo)
    (h : todo.id ∉ todos.map Todo.id) : replaceByID todos todo = none := by
  induction todos with
  | nil => rfl
  | cons t ts ih =>
    have he : ¬ t.id = todo.id := fun c => h (by simp [c])
    have h' : todo.id ∉ ts.map Todo.id := fun c => h (List.mem_cons_of_mem _ c)
    simp [replaceByID, he, ih h']

lemma map_replace_id_eq_self (ts : List Todo) (todo : Todo)
    (h : ∀ u ∈ ts, ¬ u.id = todo.id) :
    (ts.map fun u => if u.id = todo.id then todo else u) = ts := by
  induction ts with
  | nil => rfl
  | cons t ts ih =>
    have h1 := h t (List.mem_cons_self t ts)
    have h2 : ∀ u ∈ ts, ¬ u.id = todo.id := fun u hu => h u (List.mem_cons_of_mem _ hu)
    simp [h1, ih h2]

lemma replaceByID_nodup (todos : List Todo) (todo : Todo)
    (hnd : (todos.map Todo.id).Nodup) (h : todo.id ∈ todos.map Todo.id) :
    replaceByID todos todo =
      some (todos.map fun t => if t.id = todo.id then todo else t) := by
  induction todos with
  | nil => simp at h
  | cons t ts ih =>
    rw [List.map_cons, List.nodup_cons] at hnd
    by_cases he : t.id = todo.id
    · have hrest : ∀ u ∈ ts, ¬ u.id = todo.id := fun u hu c =>
        hnd.1 (by rw [he, ← c]; exact List.mem_map_of_mem Todo.id hu)
      simp [replaceByID, he, map_replace_id_eq_self ts todo hrest]
    · have h' : todo.id ∈ ts.map Todo.id := by
        rcases List.mem_cons.mp h with h0 | h0
        · exact absurd h0.symm he
        · exact h0
      simp [replaceByID, he, ih hnd.2 h']

lemma removeByID_not_found (todos : List Todo) (i : Int)
    (h : i ∉ todos.map Todo.id) : removeByID todos i = none := by
  induction todos with
  | nil => rfl
  | cons t ts ih =>
    have he : ¬ t.id = i := fun c => h (by simp [c])
    have h' : i ∉ ts.map Todo.id := fun c => h (List.mem_cons_of_mem _ c)
    simp [removeByID, he, ih h']

lemma filter_ne_id_eq_self (ts : List Todo) (i : Int)
    (h : ∀ u ∈ ts, ¬ u.id = i) :
    (ts.filter fun t => !decide (t.id = i)) = ts :=
  List.filter_eq_self.mpr fun u hu => by simpa using h u hu

lemma removeByID_nodup (todos : List Todo) (i : Int)
    (hnd : (todos.map Todo.id).Nodup) (h : i ∈ todos.map Todo.id) :
    removeByID todos i = some (todos.filter fun t => !decide (t.id = i)) := by
  induction todos with
  | nil => simp at h
  | cons t ts ih =>
    rw [List.map_cons, List.nodup_cons] at hnd
    by_cases he : t.id = i
    · have hrest : ∀ u ∈ ts, ¬ u.id = i := fun u hu c =>
        hnd.1 (by rw [he, ← c]; exact List.mem_map_of_mem Todo.id hu)
      simp [removeByID, he, List.filter_cons, filter_ne_id_eq_self ts i hrest]
    · have h' : i ∈ ts.map Todo.id := by
        rcases List.mem_cons.mp h with h0 | h0
        · exact absurd h0.symm he
        · exact h0
      simp [removeByID, he, List.filter_cons, ih hnd.2 h']

lemma filter_ne_id_length (todos : List Todo) (i : Int)
    (hnd : (todos.map Todo.id).Nodup) (h : i ∈ todos.map Todo.id) :
    (todos.filter fun t => !decide (t.id = i)).length + 1 = todos.length := by
  induction todos with
  | nil => simp at h
  | cons t ts ih =>
    rw [List.map_cons, List.nodup_cons] at hnd
    by_cases he : t.id = i
    · have hrest : ∀ u ∈ ts, ¬ u.id = i := fun u hu c =>
        hnd.1 (by rw [he, ← c]; exact List.mem_map_of_mem Todo.id hu)
      simp [List.filter_cons, he, filter_ne_id_eq_self ts i hrest]
    · have h' : i ∈ ts.map Todo.id := by
        rcases List.mem_cons.mp h with h0 | h0
        · exact absurd h0.symm he
        · exact h0
      simp [List.filter_cons, he]
      have := ih hnd.2 h'
      omega

end FileRepository

/-- C4: for every store and id present in it (ids being unique), delete
removes exactly the entry with that id, preserving the order and content
of the rest, and the remaining list has length n-1; for an id not
present, delete returns NotFound and the stored list is unchanged. -/
theorem delete_removes_exactly_one :
    ∀ (todos : List Todo) (i : Int),
      (i ∉ todos.map Todo.id →
        FileRepository.Delete todos i = (todos, some .notFound)) ∧
      ((todos.map Todo.id).Nodup → i ∈ todos.map Todo.id →
        FileRepository.Delete todos i =
          (todos.filter fun t => !decide (t.id = i), none) ∧
        (todos.filter fun t => !decide (t.id = i)).length = todos.length - 1) := by
  intro todos i
  constructor
  · intro h
    simp [FileRepository.Delete, FileRepository.removeByID_not_found todos i h]
  · intro hnd h
    refine ⟨by simp [FileRepository.Delete, FileRepository.removeByID_nodup todos i hnd h], ?_⟩
    have := FileRepository.filter_ne_id_length todos i hnd h
    omega

/-- Witness for C4: deleting id 2 from a three-element store keeps the
first and third entries in order and shrinks the length to 2. -/
theorem delete_removes_exactly_one_witness :
    FileRepository.Delete
        [⟨1, "x", false, 0, 0⟩, ⟨2, "y", true, 0, 0⟩, ⟨3, "z", false, 0, 0⟩] 2 =
      ([⟨1, "x", false, 0, 0⟩, ⟨2, "y", true, 0, 0⟩, ⟨3, "z", false, 0, 0⟩].filter
          fun t => !decide (t.id = 2), none) :=
  ((delete_removes_exactly_one
      [⟨1, "x", false, 0, 0⟩, ⟨2, "y", true, 0, 0⟩, ⟨3, "z", false, 0, 0⟩] 2).2
    (by decide) (by decide)).1

/-- C5: for every store and todo whose id is absent (ids being unique
where needed), update returns NotFound with the stored list unchanged;
when the id is present, it replaces that entry wholesale with the
supplied todo and persists the list. -/
theorem update_not_found_unchanged :
    ∀ (todos : List Todo) (todo : Todo),
      (todo.id ∉ todos.map Todo.id →
        FileRepository.Update todos todo = (todos, some .notFound)) ∧
      ((todos.map Todo.id).Nodup → todo.id ∈ todos.map Todo.id →
        FileRepository.Update todos todo =
          (todos.map fun t => if t.id = todo.id then todo else t, none)) := by
  intro todos todo
  constructor
  · intro h
    simp [FileRepository.Update, FileRepository.replaceByID_not_found todos todo h]
  · intro hnd h
    simp [FileRepository.Update, FileRepository.replaceByID_nodup todos todo hnd h]

/-- Witness for C5: updating a nonexistent id 9 leaves the stored list
unchanged and reports NotFound. -/
theorem update_not_found_unchanged_witness :
    FileRepository.Update [⟨1, "x", false, 0, 0⟩] ⟨9, "new", true, 5, 5⟩ =
      ([⟨1, "x", false, 0, 0⟩], some .notFound) :=
  (update_not_found_unchanged [⟨1, "x", false, 0, 0⟩] ⟨9, "new", true, 5, 5⟩).1
    (by decide)

namespace FileRepository

lemma findByID_not_found (todos : List Todo) (i : Int)
    (h : i ∉ todos.map Todo.id) : FindByID todos i = .error .notFound := by
  induction todos with
  | nil => rfl
  | cons t ts ih =>
    have he : ¬ t.id = i := fun c => h (by simp [c])
    have h' : i ∉ ts.map Todo.id := fun c => h (List.mem_cons_of_mem _ c)
    simp [FindByID, he, ih h']

lemma findByID_ok (todos : List Todo) (i : Int) (t0 : Todo)
    (h : FindByID todos i = .ok t0) : t0.id = i ∧ t0 ∈ todos := by
  induction todos with
  | nil => exact absurd h (by simp [FindByID])
  | cons t ts ih =>
    by_cases he : t.id = i
    · rw [FindByID, if_pos he] at h
      cases h
      exact ⟨he, List.mem_cons_self _ _⟩
    · rw [FindByID, if_neg he] at h
      rcases ih h with ⟨h1, h2⟩
      exact ⟨h1, List.mem_cons_of_mem _ h2⟩

end FileRepository

/-- C6: the Create usecase builds a Todo with completed = false and
createdAt = updatedAt = now (and zero id), validates it before any
repository call; on a validation error it returns that error with the
store untouched (the repository is never invoked), and on success it
delegates to repository create, returning the todo carrying the assigned
id. -/
theorem create_usecase_validates_first :
    ∀ (todos : List Todo) (title : String) (now : Int),
      (∀ e, ValidateTodo ⟨0, title, false, now, now⟩ = some e →
        CreateTodoUsecase.Execute todos title now = (todos, .error e)) ∧
      (ValidateTodo ⟨0, title, false, now, now⟩ = none →
        CreateTodoUsecase.Execute todos title now =
          (todos ++ [⟨FileRepository.maxID todos + 1, title, false, now, now⟩],
            .ok ⟨FileRepository.maxID todos + 1, title, false, now, now⟩)) := by
  intro todos title now
  constructor
  · intro e he
    simp [CreateTodoUsecase.Execute, he]
  · intro hv
    simp [CreateTodoUsecase.Execute, hv, FileRepository.Create]

/-- Witness for C6: an empty title is rejected without touching a
concrete one-element store. -/
theorem create_usecase_validates_first_witness :
    CreateTodoUsecase.Execute [⟨1, "x", false, 0, 0⟩] "" 7 =
      ([⟨1, "x", false, 0, 0⟩], .error .emptyTitle) :=
  (create_usecase_validates_first [⟨1, "x", false, 0, 0⟩] "" 7).1 .emptyTitle (by decide)

/-- Mutation performed by UpdateTodoUsecase.Execute on the fetched todo:
`todo.Title = title; todo.Completed = completed; todo.UpdatedAt = now`. -/
def mutate (t0 : Todo) (title : String) (completed : Bool) (now : Int) : Todo :=
  { t0 with title := title, completed := completed, updatedAt := now }

/-- C7: the Update usecase, for a stored todo found by id, changes only
title, completed and updatedAt (set to now), keeping id and createdAt;
a validation failure of the mutated record is returned with the store
untouched, and an absent id yields NotFound with the store untouched. -/
theorem update_usecase_preserves_id_createdAt :
    ∀ (todos : List Todo) (i : Int) (title : String) (completed : Bool) (now : Int),
      (i ∉ todos.map Todo.id →
        UpdateTodoUsecase.Execute todos i title completed now =
          (todos, .error .notFound)) ∧
      (∀ t0, FileRepository.FindByID todos i = .ok t0 →
        t0.id = i ∧ t0 ∈ todos ∧
        (mutate t0 title completed now).id = t0.id ∧
        (mutate t0 title completed now).createdAt = t0.createdAt ∧
        (mutate t0 title completed now).title = title ∧
        (mutate t0 title completed now).completed = completed ∧
        (mutate t0 title completed now).updatedAt = now ∧
        (∀ e, ValidateTodo (mutate t0 title completed now) = some e →
          UpdateTodoUsecase.Execute todos i title completed now = (todos, .error e)) ∧
        (ValidateTodo (mutate t0 title completed now) = none →
          ∃ todos',
            FileRepository.Update todos (mutate t0 title completed now) = (todos', none) ∧
            UpdateTodoUsecase.Execute todos i title completed now =
              (todos', .ok (mutate t0 title completed now)))) := by
  intro todos i title completed now
  constructor
  · intro h
    simp [UpdateTodoUsecase.Execute, FileRepository.findByID_not_found todos i h]
  · intro t0 hf
    rcases FileRepository.findByID_ok todos i t0 hf with ⟨hid, hmem⟩
    refine ⟨hid, hmem, rfl, rfl, rfl, rfl, rfl, ?_, ?_⟩
    · intro e he
      simp [UpdateTodoUsecase.Execute, hf, mutate] at he ⊢
      simp [he]
    · intro hv
      have hmid : (mutate t0 title completed now).id ∈ todos.map Todo.id := by
        rw [show (mutate t0 title completed now).id = t0.id from rfl]
        exact List.mem_map_of_mem Todo.id hmem
      rcases FileRepository.replaceByID_mem todos _ hmid with ⟨l, hl, _⟩
      refine ⟨l, by simp [FileRepository.Update, hl], ?_⟩
      simp [UpdateTodoUsecase.Execute, hf, mutate] at hv hl ⊢
      simp [hv, FileRepository.Update, hl]

/-- Witness for C7: updating todo 1 in a concrete store flips its fields
but keeps id and createdAt. -/
theorem update_usecase_preserves_id_createdAt_witness :
    ∃ todos',
      FileRepository.Update [⟨1, "x", false, 3, 3⟩]
          (mutate ⟨1, "x", false, 3, 3⟩ "y" true 9) = (todos', none) ∧
      UpdateTodoUsecase.Execute [⟨1, "x", false, 3, 3⟩] 1 "y" true 9 =
        (todos', .ok (mutate ⟨1, "x", false, 3, 3⟩ "y" true 9)) :=
  (((update_usecase_preserves_id_createdAt [⟨1, "x", false, 3, 3⟩] 1 "y" true 9).2
      ⟨1, "x", false, 3, 3⟩ (by rfl)).2.2.2.2.2.2.2.2) (by decide)

namespace Concurrent

/-!
Interleaving model for C8. Each goroutine performs one
`FileRepository.Create` call: `r.mu.Lock()`, then `r.load()`, then the
maxID computation plus `r.save(todos)` (these act on thread-local data
and then commit the file in the critical section), then the deferred
`r.mu.Unlock()`. The scheduler may interleave steps of different
goroutines arbitrarily, but a step of the critical section requires the
lock to be held by that goroutine, exactly as `sync.RWMutex` guarantees.
-/

/-- Phase of one goroutine executing `FileRepository.Create`:
not yet started, holding the lock, holding the lock with the loaded
list, having saved (still holding the lock) with the assigned id, and
finished with the assigned id. -/
inductive TState where
  | start
  | acquired
  | loaded (l : List Todo)
  | saved (a : Int)
  | done (a : Int)
  deriving DecidableEq, Repr

/-- Global state: the backing file's decoded contents, the holder of the
repository's mutex, and each goroutine's phase. -/
structure Sys (n : Nat) where
  store : List Todo
  lock : Option (Fin n)
  ts : Fin n → TState

/-- The goroutine is inside its critical section (between Lock and
Unlock). -/
def Mid : TState → Prop
  | .acquired => True
  | .loaded _ => True
  | .saved _ => True
  | _ => False

/-- The goroutine has been assigned id `a` by its save step. -/
def Asg : TState → Int → Prop
  | .saved b, a => b = a
  | .done b, a => b = a
  | _, _ => False

/-- One scheduler step: some goroutine `i` advances one phase. Acquiring
requires the mutex to be free; loading, saving and releasing require `i`
to hold it. Saving commits `(FileRepository.Create l (todo i)).1` as the
new file contents, where `l` is the list `i` loaded. -/
inductive Step {n : Nat} (todo : Fin n → Todo) : Sys n → Sys n → Prop where
  | acquire (s s' : Sys n) (i : Fin n) :
      s.lock = none → s.ts i = .start →
      s'.store = s.store → s'.lock = some i →
      s'.ts = Function.update s.ts i .acquired → Step todo s s'
  | load (s s' : Sys n) (i : Fin n) :
      s.lock = some i → s.ts i = .acquired →
      s'.store = s.store → s'.lock = s.lock →
      s'.ts = Function.update s.ts i (.loaded s.store) → Step todo s s'
  | save (s s' : Sys n) (i : Fin n) (l : List Todo) :
      s.lock = some i → s.ts i = .loaded l →
      s'.store = (FileRepository.Create l (todo i)).1 → s'.lock = s.lock →
      s'.ts = Function.update s.ts i (.saved (FileRepository.Create l (todo i)).2.id) →
      Step todo s s'
  | release (s s' : Sys n) (i : Fin n) (a : Int) :
      s.lock = some i → s.ts i = .saved a →
      s'.store = s.store → s'.lock = none →
      s'.ts = Function.update s.ts i (.done a) → Step todo s s'

/-- Initial state: the file holds `s0`, the mutex is free, no goroutine
has started. -/
def init (n : Nat) (s0 : List Todo) : Sys n :=
  ⟨s0, none, fun _ => .start⟩

/-- States reachable from the initial state by any interleaving. -/
def Reach (n : Nat) (todo : Fin n → Todo) (s0 : List Todo) (s : Sys n) : Prop :=
  Relation.ReflTransGen (Step todo) (init n s0) s

/-- Inductive invariant: only the lock holder is mid-call; a loaded list
is the current store; assigned ids are bounded by the store's maxID,
pairwise distinct, and their todos are present in the store. -/
structure Inv {n : Nat} (todo : Fin n → Todo) (s : Sys n) : Prop where
  lockOwn : ∀ i, Mid (s.ts i) → s.lock = some i
  loadCur : ∀ i l, s.ts i = .loaded l → l = s.store
  asgLe : ∀ i a, Asg (s.ts i) a → a ≤ FileRepository.maxID s.store
  asgDistinct : ∀ i j a b, i ≠ j → Asg (s.ts i) a → Asg (s.ts j) b → a ≠ b
  present : ∀ i a, Asg (s.ts i) a → { todo i with id := a } ∈ s.store

lemma maxID_create (l : List Todo) (t : Todo) :
    FileRepository.maxID (FileRepository.Create l t).1 = FileRepository.maxID l + 1 := by
  show FileRepository.maxID (l ++ [{ t with id := FileRepository.maxID l + 1 }]) =
    FileRepository.maxID l + 1
  rw [FileRepository.maxID_append_one]
  have hp : ({ t with id := FileRepository.maxID l + 1 } : Todo).id =
      FileRepository.maxID l + 1 := rfl
  rw [hp]
  exact max_eq_right (by omega)

theorem inv_init (n : Nat) (todo : Fin n → Todo) (s0 : List Todo) :
    Inv todo (init n s0) := by
  refine ⟨fun i hm => ?_, fun i l hl => ?_, fun i a ha => ?_,
    fun i j a b hij ha hb => ?_, fun i a ha => ?_⟩
  · simp [init, Mid] at hm
  · simp [init] at hl
  · simp [init, Asg] at ha
  · simp [init, Asg] at ha
  · simp [init, Asg] at ha

theorem inv_step {n : Nat} {todo : Fin n → Todo} {s s' : Sys n}
    (hInv : Inv todo s) (hs : Step todo s s') : Inv todo s' := by
  cases hs with
  | acquire i hlk0 hts0 hst hlk hup =>
    have tsj : ∀ j, j ≠ i → s'.ts j = s.ts j := fun j hj => by
      rw [hup, Function.update_noteq hj]
    have tsi : s'.ts i = .acquired := by rw [hup, Function.update_same]
    refine ⟨?_, ?_, ?_, ?_, ?_⟩
    · intro j hm
      by_cases hj : j = i
      · rw [hj]; exact hlk
      · rw [tsj j hj] at hm
        have h2 := hInv.lockOwn j hm
        rw [hlk0] at h2
        cases h2
    · intro j l hl
      by_cases hj : j = i
      · rw [hj, tsi] at hl; cases hl
      · rw [tsj j hj] at hl
        rw [hst]
        exact hInv.loadCur j l hl
    · intro j a ha
      by_cases hj : j = i
      · rw [hj, tsi] at ha; simp [Asg] at ha
      · rw [tsj j hj] at ha
        rw [hst]
        exact hInv.asgLe j a ha
    · intro j k a b hjk ha hb
      by_cases hj : j = i
      · rw [hj, tsi] at ha; simp [Asg] at ha
      · by_cases hk : k = i
        · rw [hk, tsi] at hb; simp [Asg] at hb
        · rw [tsj j hj] at ha
          rw [tsj k hk] at hb
          exact hInv.asgDistinct j k a b hjk ha hb
    · intro j a ha
      by_cases hj : j = i
      · rw [hj, tsi] at ha; simp [Asg] at ha
      · rw [tsj j hj] at ha
        rw [hst]
        exact hInv.present j a ha
  | load i hlk0 hts0 hst hlk hup =>
    have tsj : ∀ j, j ≠ i → s'.ts j = s.ts j := fun j hj => by
      rw [hup, Function.update_noteq hj]
    have tsi : s'.ts i = .loaded s.store := by rw [hup, Function.update_same]
    refine ⟨?_, ?_, ?_, ?_, ?_⟩
    · intro j hm
      by_cases hj : j = i
      · rw [hj, hlk]; exact hlk0
      · rw [tsj j hj] at hm
        rw [hlk]
        exact hInv.lockOwn j hm
    · intro j l hl
      by_cases hj : j = i
      · rw [hj, tsi] at hl
        cases hl
        rw [hst]
      · rw [tsj j hj] at hl
        rw [hst]
        exact hInv.loadCur j l hl
    · intro j a ha
      by_cases hj : j = i
      · rw [hj, tsi] at ha; simp [Asg] at ha
      · rw [tsj j hj] at ha
        rw [hst]
        exact hInv.asgLe j a ha
    · intro j k a b hjk ha hb
      by_cases hj : j = i
      · rw [hj, tsi] at ha; simp [Asg] at ha
      · by_cases hk : k = i
        · rw [hk, tsi] at hb; simp [Asg] at hb
        · rw [tsj j hj] at ha
          rw [tsj k hk] at hb
          exact hInv.asgDistinct j k a b hjk ha hb
    · intro j a ha
      by_cases hj : j = i
      · rw [hj, tsi] at ha; simp [Asg] at ha
      · rw [tsj j hj] at ha
        rw [hst]
        exact hInv.present j a ha
  | save i l hlk0 hts0 hst hlk hup =>
    have hl : l = s.store := hInv.loadCur i l hts0
    subst hl
    have tsj : ∀ j, j ≠ i → s'.ts j = s.ts j := fun j hj => by
      rw [hup, Function.update_noteq hj]
    have tsi : s'.ts i =
        .saved (FileRepository.Create s.store (todo i)).2.id := by
      rw [hup, Function.update_same]
    have hid : (FileRepository.Create s.store (todo i)).2.id =
        FileRepository.maxID s.store + 1 := rfl
    have hmax : FileRepository.maxID s'.store = FileRepository.maxID s.store + 1 := by
      rw [hst, maxID_create]
    refine ⟨?_, ?_, ?_, ?_, ?_⟩
    · intro j hm
      by_cases hj : j = i
      · rw [hj, hlk]; exact hlk0
      · rw [tsj j hj] at hm
        rw [hlk]
        exact hInv.lockOwn j hm
    · intro j l' hl'
      by_cases hj : j = i
      · rw [hj, tsi] at hl'; cases hl'
      · rw [tsj j hj] at hl'
        have hm : Mid (s.ts j) := by rw [hl']; trivial
        have h2 := hInv.lockOwn j hm
        rw [hlk0] at h2
        exact absurd (Option.some.inj h2).symm hj
    · intro j a ha
      by_cases hj : j = i
      · rw [hj, tsi] at ha
        simp [Asg] at ha
        rw [hid] at ha
        omega
      · rw [tsj j hj] at ha
        have := hInv.asgLe j a ha
        omega
    · intro j k a b hjk ha hb
      by_cases hj : j = i
      · rw [hj, tsi] at ha
        simp [Asg] at ha
        rw [hid] at ha
        have hk : ¬ k = i := fun c => hjk (hj.trans c.symm)
        rw [tsj k hk] at hb
        have := hInv.asgLe k b hb
        omega
      · by_cases hk : k = i
        · rw [hk, tsi] at hb
          simp [Asg] at hb
          rw [hid] at hb
          rw [tsj j hj] at ha
          have := hInv.asgLe j a ha
          omega
        · rw [tsj j hj] at ha
          rw [tsj k hk] at hb
          exact hInv.asgDistinct j k a b hjk ha hb
    · intro j a ha
      by_cases hj : j = i
      · subst hj
        rw [tsi] at ha
        simp [Asg] at ha
        rw [hst, ← ha]
        show { todo j with id := (FileRepository.Create s.store (todo j)).2.id } ∈
          s.store ++ [{ todo j with id := FileRepository.maxID s.store + 1 }]
        rw [hid]
        exact List.mem_append_right _ (List.mem_singleton.mpr rfl)
      · rw [tsj j hj] at ha
        rw [hst]
        exact List.mem_append_left _ (hInv.present j a ha)
  | release i a0 hlk0 hts0 hst hlk hup =>
    have tsj : ∀ j, j ≠ i → s'.ts j = s.ts j := fun j hj => by
      rw [hup, Function.update_noteq hj]
    have tsi : s'.ts i = .done a0 := by rw [hup, Function.update_same]
    have htr : ∀ j b, Asg (s'.ts j) b → Asg (s.ts j) b := by
      intro j b hb
      by_cases hj : j = i
      · rw [hj, tsi] at hb
        simp [Asg] at hb
        rw [hj, hts0]
        simpa [Asg] using hb
      · rw [tsj j hj] at hb
        exact hb
    refine ⟨?_, ?_, ?_, ?_, ?_⟩
    · intro j hm
      by_cases hj : j = i
      · rw [hj, tsi] at hm; simp [Mid] at hm
      · rw [tsj j hj] at hm
        have h2 := hInv.lockOwn j hm
        rw [hlk0] at h2
        exact absurd (Option.some.inj h2).symm hj
    · intro j l hl
      by_cases hj : j = i
      · rw [hj, tsi] at hl; cases hl
      · rw [tsj j hj] at hl
        rw [hst]
        exact hInv.loadCur j l hl
    · intro j a ha
      rw [hst]
      exact hInv.asgLe j a (htr j a ha)
    · intro j k a b hjk ha hb
      exact hInv.asgDistinct j k a b hjk (htr j a ha) (htr k b hb)
    · intro j a ha
      rw [hst]
      exact hInv.present j a (htr j a ha)

theorem inv_of_reach {n : Nat} {todo : Fin n → Todo} {s0 : List Todo} {s : Sys n}
    (h : Reach n todo s0 s) : Inv todo s := by
  induction h with
  | refl => exact inv_init n todo s0
  | tail _ hstep ih => exact inv_step ih hstep

end Concurrent

/-- C8: under the lock-guarded interleaving semantics of N goroutines
each performing one repository create, in every reachable state no two
goroutines are simultaneously inside their load+compute+save critical
section; when goroutines have finished, their assigned ids are pairwise
distinct and each goroutine's todo (with its assigned id) is in the
store — no duplicates and no lost writes. -/
theorem concurrent_creates_distinct_ids :
    ∀ (n : Nat) (todo : Fin n → Todo) (s0 : List Todo) (s : Concurrent.Sys n),
      Concurrent.Reach n todo s0 s →
      (∀ i j : Fin n, i ≠ j →
        ¬ (Concurrent.Mid (s.ts i) ∧ Concurrent.Mid (s.ts j))) ∧
      (∀ (i j : Fin n) (a b : Int), i ≠ j →
        s.ts i = .done a → s.ts j = .done b → a ≠ b) ∧
      (∀ (i : Fin n) (a : Int), s.ts i = .done a →
        { todo i with id := a } ∈ s.store) := by
  intro n todo s0 s h
  have hInv := Concurrent.inv_of_reach h
  refine ⟨?_, ?_, ?_⟩
  · rintro i j hij ⟨hi, hj⟩
    have h1 := hInv.lockOwn i hi
    have h2 := hInv.lockOwn j hj
    rw [h1] at h2
    exact hij (Option.some.inj h2)
  · intro i j a b hij hi hj
    exact hInv.asgDistinct i j a b hij (by rw [hi]; simp [Concurrent.Asg])
      (by rw [hj]; simp [Concurrent.Asg])
  · intro i a hi
    exact hInv.present i a (by rw [hi]; simp [Concurrent.Asg])

/-- Goroutine inputs for the C8 witness trace: two goroutines each
creating the same fresh todo. -/
def demoTodo : Fin 2 → Todo := fun _ => ⟨0, "a", false, 0, 0⟩

/-- Intermediate states of the C8 witness trace. -/
def demoS1 : Concurrent.Sys 2 :=
  ⟨[], some 0, fun j => if j = 0 then .acquired else .start⟩

def demoS2 : Concurrent.Sys 2 :=
  ⟨[], some 0, fun j => if j = 0 then .loaded [] else .start⟩

def demoS3 : Concurrent.Sys 2 :=
  ⟨[⟨1, "a", false, 0, 0⟩], some 0, fun j => if j = 0 then .saved 1 else .start⟩

def demoS4 : Concurrent.Sys 2 :=
  ⟨[⟨1, "a", false, 0, 0⟩], none, fun j => if j = 0 then .done 1 else .start⟩

def demoS5 : Concurrent.Sys 2 :=
  ⟨[⟨1, "a", false, 0, 0⟩], some 1, fun j => if j = 0 then .done 1 else .acquired⟩

def demoS6 : Concurrent.Sys 2 :=
  ⟨[⟨1, "a", false, 0, 0⟩], some 1,
    fun j => if j = 0 then .done 1 else .loaded [⟨1, "a", false, 0, 0⟩]⟩

def demoS7 : Concurrent.Sys 2 :=
  ⟨[⟨1, "a", false, 0, 0⟩, ⟨2, "a", false, 0, 0⟩], some 1,
    fun j => if j = 0 then .done 1 else .saved 2⟩

def demoFinal : Concurrent.Sys 2 :=
  ⟨[⟨1, "a", false, 0, 0⟩, ⟨2, "a", false, 0, 0⟩], none,
    fun j => if j = 0 then .done 1 else .done 2⟩

/-- Witness for C8: a concrete complete interleaving of two goroutines
from the empty store assigns the distinct ids 1 and 2, both todos ending
up in the store. -/
theorem concurrent_creates_distinct_ids_witness :
    (1 : Int) ≠ 2 ∧
      { demoTodo 0 with id := (1 : Int) } ∈ demoFinal.store ∧
      { demoTodo 1 with id := (2 : Int) } ∈ demoFinal.store := by
  have h1 : Concurrent.Step demoTodo (Concurrent.init 2 []) demoS1 :=
    Concurrent.Step.acquire _ _ 0 rfl rfl rfl rfl (by funext j; fin_cases j <;> rfl)
  have h2 : Concurrent.Step demoTodo demoS1 demoS2 :=
    Concurrent.Step.load _ _ 0 rfl rfl rfl rfl (by funext j; fin_cases j <;> rfl)
  have h3 : Concurrent.Step demoTodo demoS2 demoS3 :=
    Concurrent.Step.save _ _ 0 [] rfl rfl rfl rfl (by funext j; fin_cases j <;> rfl)
  have h4 : Concurrent.Step demoTodo demoS3 demoS4 :=
    Concurrent.Step.release _ _ 0 1 rfl rfl rfl rfl (by funext j; fin_cases j <;> rfl)
  have h5 : Concurrent.Step demoTodo demoS4 demoS5 :=
    Concurrent.Step.acquire _ _ 1 rfl rfl rfl rfl (by funext j; fin_cases j <;> rfl)
  have h6 : Concurrent.Step demoTodo demoS5 demoS6 :=
    Concurrent.Step.load _ _ 1 rfl rfl rfl rfl (by funext j; fin_cases j <;> rfl)
  have h7 : Concurrent.Step demoTodo demoS6 demoS7 :=
    Concurrent.Step.save _ _ 1 [⟨1, "a", false, 0, 0⟩] rfl rfl rfl rfl
      (by funext j; fin_cases j <;> rfl)
  have h8 : Concurrent.Step demoTodo demoS7 demoFinal :=
    Concurrent.Step.release _ _ 1 2 rfl rfl rfl rfl (by funext j; fin_cases j <;> rfl)
  have htr : Concurrent.Reach 2 demoTodo [] demoFinal :=
    .tail (.tail (.tail (.tail (.tail (.tail (.tail (.tail .refl h1) h2) h3) h4) h5) h6) h7) h8
  have H := concurrent_creates_distinct_ids 2 demoTodo [] demoFinal htr
  exact ⟨H.2.1 0 1 1 2 (by decide) rfl rfl, H.2.2 0 1 rfl, H.2.2 1 2 rfl⟩

end GoTodo
